import Mathlib

/-!
Verification of the chess-engine core (Board, movement strategies, rule set,
game engine) against its natural-language specification.

The TypeScript source is shallowly embedded: JavaScript `undefined` is
modelled by `Option` (so a possibly-missing value is `Option α`, and JS
truthiness of an object-or-undefined value is `Option.isSome`); the 8×8 grid
of piece records is a `List (List Piece)`; mutation is explicit state passing.
Numbers that the source only ever uses as small integers (grid indices,
ranks, move counters) are embedded as `Int`, matching JS arithmetic on them.

One JS semantic point recurs: a piece record such as `{}` (the empty square)
is an *object*, hence truthy.  Tests like `if (!piece)`, `if (targetPiece)`
and `if (board.getPiece(pos))` in the source therefore only distinguish
"array access returned undefined" (out of bounds) from "returned a record"
(any in-bounds square, occupied or not).  The embedding reflects this by
testing `Option.isSome` of the access, never emptiness of the piece.
-/

/-- `PieceType` from src/unnamed/part_002 (`type.ts`). -/
inductive PieceType where
  | pawn | rook | knight | bishop | queen | king
deriving DecidableEq

/-- `PlayerColor` from src/unnamed/part_002. -/
inductive PlayerColor where
  | white | black
deriving DecidableEq

/-- The `special` tag of a `Move` (src/unnamed/part_002). -/
inductive SpecialTag where
  | castling | enpassant | promotion
deriving DecidableEq

/-- `Piece` from src/unnamed/part_002: all three fields are optional in the
source (`type?`, `color?`, `hasMoved?`); `{}` is the empty square. -/
structure Piece where
  type : Option PieceType
  color : Option PlayerColor
  hasMoved : Option Bool
deriving DecidableEq

/-- The empty-square record `{}`. -/
def emptyPiece : Piece := ⟨none, none, none⟩

/-- `Position` from src/unnamed/part_002: `x` a file character `'a'..'h'`,
`y` a rank number `1..8` (a JS number, embedded as `Int`). -/
structure Position where
  x : Char
  y : Int
deriving DecidableEq

/-- `Move` from src/unnamed/part_002.  `from` is a Lean keyword, so the
source's `from` and `to` fields are named `from'` and `to'` here (keywords). -/
structure Move where
  from' : Position
  to' : Position
  capture : Option Piece
  special : Option SpecialTag
deriving DecidableEq

/-- The grid type `Piece[][]`. -/
abbrev Grid := List (List Piece)

/-- `BoardState` from src/unnamed/part_002. -/
structure BoardState where
  grid : Grid
  turn : PlayerColor
  moveHistory : List Move
  capturedPieces : List Piece
deriving DecidableEq

/-- Column index of a file character: `position.x.charCodeAt(0) - 'a'.charCodeAt(0)`
(src/unnamed/part_000, `posToIndices`). -/
def colOfX (x : Char) : Int := (x.toNat : Int) - 97

/-- `posToIndices` (src/unnamed/part_000 line 6 and src/unnamed/part_001 line 107):
returns `(row, col)` with row `8 - y` (row 0 is rank 8). -/
def posToIndices (p : Position) : Int × Int := (8 - p.y, colOfX p.x)

/-- `String.fromCharCode('a'.charCodeAt(0) + col)`. -/
def charOfCol (c : Int) : Char := Char.ofNat (97 + c).toNat

/-- `indicesToPosition` (src/unnamed/part_000 line 13). -/
def indicesToPosition (row col : Int) : Position := ⟨charOfCol col, 8 - row⟩

/-- `inBounds` (src/unnamed/part_000 line 18). -/
def inBoundsI (r c : Int) : Bool :=
  decide (0 ≤ r ∧ r < 8 ∧ 0 ≤ c ∧ c < 8)

/-- Array access `grid[r][c]`: `none` models JS `undefined` for an index
outside the stored lists.  (For a negative *row* index the source would in
fact fault on the subsequent member access; every call site relevant to the
claims is bounds-checked or in-bounds, where the two agree.) -/
def getCellI (g : Grid) (r c : Int) : Option Piece :=
  if 0 ≤ r ∧ 0 ≤ c then
    (List.get? g r.toNat).bind fun row => List.get? row c.toNat
  else none

/-- Assignment `grid[r][c] = p` (no-op out of bounds; all claim-relevant
writes are in-bounds). -/
def setCellI (g : Grid) (r c : Int) (p : Piece) : Grid :=
  if 0 ≤ r ∧ 0 ≤ c then
    match List.get? g r.toNat with
    | some row => List.set g r.toNat (List.set row c.toNat p)
    | none => g
  else g

/-- The grid really is 8×8 (guaranteed by `createInitialBoard` and preserved
by `move`; hypothesis of the symbolic theorems). -/
def WFGrid (g : Grid) : Prop :=
  List.length g = 8 ∧ ∀ row ∈ g, List.length row = 8

instance : DecidablePred WFGrid := fun g => by
  unfold WFGrid; infer_instance

/-- A piece with the given type and color, not yet moved. -/
def mkPiece (t : PieceType) (c : PlayerColor) : Piece := ⟨some t, some c, some false⟩

/-- `ClassicBoard.createInitialBoard` (src/unnamed/part_001 lines 43–85):
black on rows 0–1, white on rows 6–7, white to move, empty history/captures. -/
def createInitialBoard : BoardState :=
  { grid :=
      [ [mkPiece .rook .black, mkPiece .knight .black, mkPiece .bishop .black,
         mkPiece .queen .black, mkPiece .king .black, mkPiece .bishop .black,
         mkPiece .knight .black, mkPiece .rook .black]
      , List.replicate 8 (mkPiece .pawn .black)
      , List.replicate 8 emptyPiece
      , List.replicate 8 emptyPiece
      , List.replicate 8 emptyPiece
      , List.replicate 8 emptyPiece
      , List.replicate 8 (mkPiece .pawn .white)
      , [mkPiece .rook .white, mkPiece .knight .white, mkPiece .bishop .white,
         mkPiece .queen .white, mkPiece .king .white, mkPiece .bishop .white,
         mkPiece .knight .white, mkPiece .rook .white] ]
  , turn := .white
  , moveHistory := []
  , capturedPieces := [] }

/-- `ClassicBoard.getPiece` (src/unnamed/part_001 lines 176–180):
`grid[8 - y][x - 'a']`; `none` = JS `undefined` (out of bounds only). -/
def getPiece (s : BoardState) (pos : Position) : Option Piece :=
  getCellI s.grid (8 - pos.y) (colOfX pos.x)

/-- `ClassicBoard.move` (src/unnamed/part_001 lines 105–136), returning
`(success, new state)`.

Faithful points: the source's `if (!piece) return false` tests JS truthiness
of `grid[fromRow][fromCol]`, which is falsy only when the access yields
`undefined` (out of bounds) — an in-bounds *empty* square is the truthy
record `{}` and passes the test.  Likewise `if (targetPiece)` is true for
every in-bounds destination, so the destination record (possibly `{}`) is
always pushed onto `capturedPieces`.  The destination then receives
`{ ...piece, hasMoved: true }`, the source square `{}`, the move is appended
to history, and the turn switches unconditionally (`switchTurn`, lines
162–164, inlined here). -/
def ClassicBoard.move (s : BoardState) (m : Move) : Bool × BoardState :=
  match getCellI s.grid (posToIndices m.from').1 (posToIndices m.from').2 with
  | none => (false, s)
  | some piece =>
    (true,
      { grid :=
          setCellI
            (setCellI s.grid (posToIndices m.to').1 (posToIndices m.to').2
              { piece with hasMoved := some true })
            (posToIndices m.from').1 (posToIndices m.from').2 emptyPiece
      , turn := if s.turn = .white then .black else .white
      , moveHistory := s.moveHistory ++ [m]
      , capturedPieces :=
          match getCellI s.grid (posToIndices m.to').1 (posToIndices m.to').2 with
          | some t => s.capturedPieces ++ [t]
          | none => s.capturedPieces })

/-- The spec's "empty square never carries occupancy-implying data"
invariant (spec §3, claim C3), over the grid cells of a board state. -/
def invariantOK (s : BoardState) : Prop :=
  ∀ row ∈ s.grid, ∀ p ∈ row, p.type = none → p.color = none ∧ p.hasMoved = none

instance : DecidablePred invariantOK := fun s => by
  unfold invariantOK; infer_instance

/-- JS falsiness of an optional boolean: `!piece.hasMoved` is true when
`hasMoved` is `undefined` or `false`. -/
def jsFalsy (b : Option Bool) : Bool :=
  match b with
  | none => true
  | some b => !b

/-- `isEmpty` (src/unnamed/part_000 line 28): `getPieceAt(board,r,c).type === undefined`.
Every call site has already checked `inBounds`; on an out-of-range access the
source would fault, modelled here as `false`. -/
def isEmptyB (g : Grid) (r c : Int) : Bool :=
  match getCellI g r c with
  | some p => decide (p.type = none)
  | none => false

/-- `isOpponentPiece` (src/unnamed/part_000 line 33):
`piece.type !== undefined && piece.color !== myColor` (the caller passes
`piece.color!`, embedded as the optional `my`). -/
def isOppB (g : Grid) (r c : Int) (my : Option PlayerColor) : Bool :=
  match getCellI g r c with
  | some q => decide (q.type ≠ none) && decide (q.color ≠ my)
  | none => false

/-- The `MovementStrategy` interface: `getPossibleMoves(piece, position, board)`,
where the strategy only reads the board through `getGrid()`. -/
abbrev MovementStrategy := Piece → Position → Grid → List Move

/-- `PawnStrategy.getPossibleMoves` (src/unnamed/part_000 lines 57–98):
one square forward onto an empty square; two forward only from the start row
(6 for white, 1 for black) with both squares empty (nested inside the
one-step branch, as in the source); diagonal captures onto either forward
diagonal occupied by an opponent, recording the captured piece. -/
def pawnStrategy : MovementStrategy := fun piece pos g =>
  let row := (posToIndices pos).1
  let col := (posToIndices pos).2
  let forward : Int := if piece.color = some .white then -1 else 1
  let startRow : Int := if piece.color = some .white then 6 else 1
  let oneStep := row + forward
  (if inBoundsI oneStep col && isEmptyB g oneStep col then
    ⟨pos, indicesToPosition oneStep col, none, none⟩ ::
      (if row = startRow then
        (if inBoundsI (row + 2 * forward) col && isEmptyB g (row + 2 * forward) col then
          [⟨pos, indicesToPosition (row + 2 * forward) col, none, none⟩]
        else [])
      else [])
  else []) ++
  (([-1, 1] : List Int).flatMap fun deltaCol =>
    if inBoundsI oneStep (col + deltaCol) && isOppB g oneStep (col + deltaCol) piece.color then
      [⟨pos, indicesToPosition oneStep (col + deltaCol), getCellI g oneStep (col + deltaCol), none⟩]
    else [])

/-- One sliding ray (the `while (inBounds(r, c))` loop shared verbatim by
`RookStrategy` and `BishopStrategy`, src/unnamed/part_000 lines 116–138 and
160–183): emit an empty square and continue; emit an opponent square as a
capture and stop; stop silently on a friendly piece.  The loop leaves the
board after at most 8 steps (each direction has a ±1 component), so fuel 8
is exact. -/
def rayWalk (g : Grid) (my : Option PlayerColor) (src : Position) (dRow dCol : Int) :
    Nat → Int → Int → List Move
  | 0, _, _ => []
  | fuel + 1, r, c =>
    if inBoundsI r c then
      match getCellI g r c with
      | some cell =>
        if cell.type = none then
          ⟨src, indicesToPosition r c, none, none⟩ ::
            rayWalk g my src dRow dCol fuel (r + dRow) (c + dCol)
        else if cell.type ≠ none ∧ cell.color ≠ my then
          [⟨src, indicesToPosition r c, some cell, none⟩]
        else []
      | none => []
    else []

/-- The rook's four orthogonal directions, in source order (up, down, left,
right; src/unnamed/part_000 lines 109–114). -/
def rookDirections : List (Int × Int) := [(-1, 0), (1, 0), (0, -1), (0, 1)]

/-- The bishop's four diagonal directions, in source order (lines 153–158). -/
def bishopDirections : List (Int × Int) := [(-1, -1), (-1, 1), (1, -1), (1, 1)]

/-- The common body of `RookStrategy`/`BishopStrategy.getPossibleMoves`:
walk every direction of `dirs` starting one step out from the origin. -/
def slideMoves (dirs : List (Int × Int)) : MovementStrategy := fun piece pos g =>
  dirs.flatMap fun d =>
    rayWalk g piece.color pos d.1 d.2 8
      ((posToIndices pos).1 + d.1) ((posToIndices pos).2 + d.2)

/-- `RookStrategy.getPossibleMoves` (src/unnamed/part_000 lines 104–142). -/
def rookStrategy : MovementStrategy := slideMoves rookDirections

/-- `BishopStrategy.getPossibleMoves` (lines 148–188; its `console.log`
calls have no effect on the returned list). -/
def bishopStrategy : MovementStrategy := slideMoves bishopDirections

/-- `QueenStrategy.getPossibleMoves` (lines 193–203): rook moves followed by
bishop moves for the same inputs. -/
def queenStrategy : MovementStrategy := fun piece pos g =>
  rookStrategy piece pos g ++ bishopStrategy piece pos g

/-- The fixed-offset body shared by `KnightStrategy` and `KingStrategy`
(lines 208–244 and 250–286): each in-bounds target is a plain move if empty,
a capture if an opponent, skipped if friendly. -/
def stepMoves (offsets : List (Int × Int)) : MovementStrategy := fun piece pos g =>
  offsets.flatMap fun d =>
    let r := (posToIndices pos).1 + d.1
    let c := (posToIndices pos).2 + d.2
    if inBoundsI r c then
      if isEmptyB g r c then [⟨pos, indicesToPosition r c, none, none⟩]
      else if isOppB g r c piece.color then [⟨pos, indicesToPosition r c, getCellI g r c, none⟩]
      else []
    else []

/-- `KnightStrategy.getPossibleMoves` offsets, in source order. -/
def knightStrategy : MovementStrategy :=
  stepMoves [(-2, -1), (-2, 1), (-1, -2), (-1, 2), (1, -2), (1, 2), (2, -1), (2, 1)]

/-- `KingStrategy.getPossibleMoves` offsets, in source order. -/
def kingStrategy : MovementStrategy :=
  stepMoves [(-1, -1), (-1, 0), (-1, 1), (0, -1), (0, 1), (1, -1), (1, 0), (1, 1)]

/-- The `originalStrategies` record of `StandardRuleSet`
(src/unnamed/part_000 lines 374–381). -/
def standardStrategies : PieceType → MovementStrategy
  | .pawn => pawnStrategy
  | .rook => rookStrategy
  | .knight => knightStrategy
  | .bishop => bishopStrategy
  | .queen => queenStrategy
  | .king => kingStrategy

/-- The mutable state of a `StandardRuleSet` instance: the original bindings
(never written) and the current bindings.  Generalized over the strategy
type `S` exactly as the claims about the binding algebra require; the
standard instance uses `S := MovementStrategy`. -/
structure RuleSetState (S : Type) where
  originalStrategies : PieceType → S
  strategies : PieceType → S

/-- A freshly constructed `StandardRuleSet`: `strategies = { ...originalStrategies }`. -/
def standardRuleSet : RuleSetState MovementStrategy :=
  ⟨standardStrategies, standardStrategies⟩

/-- `getMovementStrategy` (src/unnamed/part_000 line 389). -/
def RuleSetState.getMovementStrategy (rs : RuleSetState S) (t : PieceType) : S :=
  rs.strategies t

/-- `overrideStrategy` (line 490): `this.strategies[type] = strategy`. -/
def RuleSetState.overrideStrategy (rs : RuleSetState S) (t : PieceType) (s : S) :
    RuleSetState S :=
  { rs with strategies := fun t' => if t' = t then s else rs.strategies t' }

/-- `restoreStrategy` (line 497): `this.strategies[type] = this.originalStrategies[type]`. -/
def RuleSetState.restoreStrategy (rs : RuleSetState S) (t : PieceType) : RuleSetState S :=
  { rs with strategies := fun t' => if t' = t then rs.originalStrategies t' else rs.strategies t' }

/-- The integer list `[a, a+1, ..., b-1]` of a `for (let col = a; col < b; col++)` loop. -/
def intRange (a b : Int) : List Int :=
  (List.range (b - a).toNat).map fun i => a + (i : Int)

/-- `StandardRuleSet.getSpecialMoves` (src/unnamed/part_000 lines 398–455).

Faithful points: `if (!piece) return moves` fires only when `getPiece`
yields `undefined` (out of bounds); an in-bounds empty square is truthy.
Inside the path-clear loops, `if (board.getPiece(pos))` is likewise truthy
for *every* in-bounds square — occupied or empty — so `pathClear` survives
only when the loop body never runs.  The rook tests `rookX && rookX.type
=== 'rook' && !rookX.hasMoved` reduce to the type/hasMoved tests once the
access is in-bounds. -/
def getSpecialMoves (s : BoardState) (position : Position) : List Move :=
  match getPiece s position with
  | none => []
  | some piece =>
    if piece.type = some .king ∧ jsFalsy piece.hasMoved then
      let colKing : Int := (position.x.toNat : Int) - 97
      let homeY : Int := if piece.color = some .white then 1 else 8
      (match getPiece s ⟨'h', homeY⟩ with
        | some rookKingside =>
          if rookKingside.type = some .rook ∧ jsFalsy rookKingside.hasMoved then
            if (intRange (colKing + 1) 7).all
                (fun col => !(getPiece s ⟨charOfCol col, homeY⟩).isSome) then
              [⟨position, ⟨'g', homeY⟩, none, some .castling⟩]
            else []
          else []
        | none => []) ++
      (match getPiece s ⟨'a', homeY⟩ with
        | some rookQueenside =>
          if rookQueenside.type = some .rook ∧ jsFalsy rookQueenside.hasMoved then
            if (intRange 1 colKing).all
                (fun col => !(getPiece s ⟨charOfCol col, homeY⟩).isSome) then
              [⟨position, ⟨'c', homeY⟩, none, some .castling⟩]
            else []
          else []
        | none => [])
    else []

/-- The state a `ChessEngine` owns: the board plus the move-quota pair
(`moveLimitValue`, `movesLeft`), both initially 1
(src/lib/engine/core/GameEngine.ts lines 24–27). -/
structure EngineState where
  board : BoardState
  moveLimitValue : Int
  movesLeft : Int
deriving DecidableEq

/-- A freshly constructed `ChessEngine` (constructor, lines 29–32). -/
def engineInit : EngineState := ⟨createInitialBoard, 1, 1⟩

/-- `ChessEngine.move` (GameEngine.ts lines 55–73): record the acting color,
delegate to `Board.move`; on failure do nothing; on success, with a quota
greater than one either revert the board's turn switch and decrement
`movesLeft`, or (on the last quota move) reset `movesLeft` and let the
switch stand. -/
def ChessEngine.move (e : EngineState) (m : Move) : EngineState :=
  let currentPlayer := e.board.turn
  let result := ClassicBoard.move e.board m
  if !result.1 then e
  else if e.moveLimitValue > 1 then
    if e.movesLeft > 1 then
      { e with board := { result.2 with turn := currentPlayer }, movesLeft := e.movesLeft - 1 }
    else
      { e with board := result.2, movesLeft := e.moveLimitValue }
  else { e with board := result.2 }

/-- `ChessEngine.setMoveLimit` (lines 93–96). -/
def ChessEngine.setMoveLimit (e : EngineState) (limit : Int) : EngineState :=
  { e with moveLimitValue := limit, movesLeft := limit }

/-- `ChessEngine.remainingMoves` (lines 85–87). -/
def ChessEngine.remainingMoves (e : EngineState) : Int := e.movesLeft

/-- `ChessEngine.resetMoveLimit` (lines 101–104). -/
def ChessEngine.resetMoveLimit (e : EngineState) : EngineState :=
  { e with moveLimitValue := 1, movesLeft := 1 }

/-- White's king on e1 unmoved, rook on h1 unmoved, and the squares f1 and
g1 between them cleared: the textbook kingside-castling position. -/
def castleTestBoard : BoardState :=
  { createInitialBoard with
    grid := setCellI (setCellI createInitialBoard.grid 7 5 emptyPiece) 7 6 emptyPiece }

/-- "Opposite color" as the spec uses it (the board's `switchTurn` flip). -/
def oppositeColor : PlayerColor → PlayerColor
  | .white => .black
  | .black => .white

/-- The pawn's forward row step from the spec: −1 for white, +1 for black. -/
def pawnForward (c : PlayerColor) : Int := if c = .white then -1 else 1

/-- The pawn's starting row index from the spec: 6 for white, 1 for black. -/
def pawnStartRow (c : PlayerColor) : Int := if c = .white then 6 else 1

/-- Specification of one emitted sliding move (claim C7): along some
direction `d` of the strategy there is a step count `i + 1 ≥ 1` such that
every strictly earlier square of the ray is in-bounds and empty, the target
square is in-bounds, and the move is either a plain move onto an empty
target or a capture of an opponent piece standing there — i.e. rays run
square by square from the origin to the first occupied square, emit an
opponent square as the final capture, never emit a friendly square, and
never pass beyond the first occupied square. -/
def SlideSpec (dirs : List (Int × Int)) (piece : Piece) (pos : Position) (g : Grid)
    (mv : Move) : Prop :=
  ∃ d ∈ dirs, ∃ i : Nat, i < 8 ∧
    (∀ j : Nat, j < i →
      inBoundsI ((posToIndices pos).1 + d.1 + (j : Int) * d.1)
          ((posToIndices pos).2 + d.2 + (j : Int) * d.2) = true ∧
      ∃ q, getCellI g ((posToIndices pos).1 + d.1 + (j : Int) * d.1)
          ((posToIndices pos).2 + d.2 + (j : Int) * d.2) = some q ∧ q.type = none) ∧
    inBoundsI ((posToIndices pos).1 + d.1 + (i : Int) * d.1)
        ((posToIndices pos).2 + d.2 + (i : Int) * d.2) = true ∧
    ((∃ q, getCellI g ((posToIndices pos).1 + d.1 + (i : Int) * d.1)
          ((posToIndices pos).2 + d.2 + (i : Int) * d.2) = some q ∧ q.type = none ∧
        mv = ⟨pos, indicesToPosition ((posToIndices pos).1 + d.1 + (i : Int) * d.1)
          ((posToIndices pos).2 + d.2 + (i : Int) * d.2), none, none⟩) ∨
     (∃ q, getCellI g ((posToIndices pos).1 + d.1 + (i : Int) * d.1)
          ((posToIndices pos).2 + d.2 + (i : Int) * d.2) = some q ∧ q.type ≠ none ∧
        q.color ≠ piece.color ∧
        mv = ⟨pos, indicesToPosition ((posToIndices pos).1 + d.1 + (i : Int) * d.1)
          ((posToIndices pos).2 + d.2 + (i : Int) * d.2), some q, none⟩))

/-- C1: the claim "a move whose source square holds no piece fails and
leaves the board unchanged" is FALSE on the code.  On the initial board the
square e4 holds no piece (`type` is `undefined`), yet `Board.move` from e4
to e5 reports success and mutates every component of the state: the empty
record is appended to `capturedPieces`, the move enters the history, the
destination cell becomes `{ hasMoved: true }`, and the turn flips.  The
source's own comment (`return false; // no piece to move`) shows the intent
the claim states; the guard `if (!piece)` cannot fire for the truthy `{}`. -/
theorem empty_source_move_succeeds_and_mutates :
    getPiece createInitialBoard ⟨'e', 4⟩ = some emptyPiece ∧
    (ClassicBoard.move createInitialBoard ⟨⟨'e', 4⟩, ⟨'e', 5⟩, none, none⟩).1 = true ∧
    (ClassicBoard.move createInitialBoard ⟨⟨'e', 4⟩, ⟨'e', 5⟩, none, none⟩).2.capturedPieces
        = [emptyPiece] ∧
    (ClassicBoard.move createInitialBoard ⟨⟨'e', 4⟩, ⟨'e', 5⟩, none, none⟩).2.moveHistory
        = [⟨⟨'e', 4⟩, ⟨'e', 5⟩, none, none⟩] ∧
    (ClassicBoard.move createInitialBoard ⟨⟨'e', 4⟩, ⟨'e', 5⟩, none, none⟩).2.turn = .black ∧
    getPiece (ClassicBoard.move createInitialBoard ⟨⟨'e', 4⟩, ⟨'e', 5⟩, none, none⟩).2 ⟨'e', 5⟩
        = some ⟨none, none, some true⟩ := by
  decide

/-- C3: the claim "no grid cell with an absent kind ever carries a color or
`hasMoved` value" is an invariant the code BREAKS.  It holds on the initial
board, but one `Board.move` from the empty square e4 (which the code
accepts, see C1) writes `{ hasMoved: true }` — a kindless piece carrying
occupancy-implying data — into the destination cell e5. -/
theorem empty_square_invariant_broken_by_move :
    invariantOK createInitialBoard ∧
    ¬ invariantOK (ClassicBoard.move createInitialBoard ⟨⟨'e', 4⟩, ⟨'e', 5⟩, none, none⟩).2 := by
  decide

/-- C2: the claim "a castling candidate appears whenever the unmoved king's
corresponding rook is unmoved and the squares strictly between are empty" is
FALSE on the code.  On `castleTestBoard` the white king on e1 and rook on h1
are unmoved and f1, g1 are empty, yet `getSpecialMoves` returns no move at
all: the path-clear loop tests `if (board.getPiece(pos))`, and `getPiece`
returns a truthy record for every in-bounds square — empty or not — so
`pathClear` is falsified by the very squares whose emptiness should allow
castling (the source comment says "Check that squares between king and rook
are empty"). -/
theorem castling_candidate_never_produced :
    getPiece castleTestBoard ⟨'e', 1⟩ = some (mkPiece .king .white) ∧
    getPiece castleTestBoard ⟨'h', 1⟩ = some (mkPiece .rook .white) ∧
    getPiece castleTestBoard ⟨'f', 1⟩ = some emptyPiece ∧
    getPiece castleTestBoard ⟨'g', 1⟩ = some emptyPiece ∧
    getSpecialMoves castleTestBoard ⟨'e', 1⟩ = [] := by
  decide

/-- C6: the move-quota scenario.  After `setMoveLimit(3)` the counter reads
3; three successful white moves (a2–a3, b2–b3, c2–c3) leave the turn with
white after moves 1 and 2 (counter 2, then 1) and pass it to black only
after move 3, the counter resetting to 3. -/
theorem move_quota_three_scenario :
    ChessEngine.remainingMoves (ChessEngine.setMoveLimit engineInit 3) = 3 ∧
    (ChessEngine.move (ChessEngine.setMoveLimit engineInit 3)
        ⟨⟨'a', 2⟩, ⟨'a', 3⟩, none, none⟩).board.turn = .white ∧
    ChessEngine.remainingMoves (ChessEngine.move (ChessEngine.setMoveLimit engineInit 3)
        ⟨⟨'a', 2⟩, ⟨'a', 3⟩, none, none⟩) = 2 ∧
    (ChessEngine.move (ChessEngine.move (ChessEngine.setMoveLimit engineInit 3)
        ⟨⟨'a', 2⟩, ⟨'a', 3⟩, none, none⟩)
        ⟨⟨'b', 2⟩, ⟨'b', 3⟩, none, none⟩).board.turn = .white ∧
    ChessEngine.remainingMoves (ChessEngine.move (ChessEngine.move
        (ChessEngine.setMoveLimit engineInit 3)
        ⟨⟨'a', 2⟩, ⟨'a', 3⟩, none, none⟩)
        ⟨⟨'b', 2⟩, ⟨'b', 3⟩, none, none⟩) = 1 ∧
    (ChessEngine.move (ChessEngine.move (ChessEngine.move
        (ChessEngine.setMoveLimit engineInit 3)
        ⟨⟨'a', 2⟩, ⟨'a', 3⟩, none, none⟩)
        ⟨⟨'b', 2⟩, ⟨'b', 3⟩, none, none⟩)
        ⟨⟨'c', 2⟩, ⟨'c', 3⟩, none, none⟩).board.turn = .black ∧
    ChessEngine.remainingMoves (ChessEngine.move (ChessEngine.move (ChessEngine.move
        (ChessEngine.setMoveLimit engineInit 3)
        ⟨⟨'a', 2⟩, ⟨'a', 3⟩, none, none⟩)
        ⟨⟨'b', 2⟩, ⟨'b', 3⟩, none, none⟩)
        ⟨⟨'c', 2⟩, ⟨'c', 3⟩, none, none⟩) = 3 := by
  decide


lemma getCellI_isSome_of_WF {g : Grid} (hw : WFGrid g) {r c : Int}
    (h : inBoundsI r c = true) : ∃ p, getCellI g r c = some p := by
  simp only [inBoundsI, decide_eq_true_eq] at h
  obtain ⟨hr0, hr8, hc0, hc8⟩ := h
  obtain ⟨hlen, hrows⟩ := hw
  have hrlt : r.toNat < List.length g := by rw [hlen]; omega
  have hrow : List.get? g r.toNat = some (List.get g ⟨r.toNat, hrlt⟩) :=
    List.get?_eq_get hrlt
  have hmem : List.get g ⟨r.toNat, hrlt⟩ ∈ g := List.get_mem g _ hrlt
  have hclt : c.toNat < List.length (List.get g ⟨r.toNat, hrlt⟩) := by
    rw [hrows _ hmem]; omega
  have hcell : List.get? (List.get g ⟨r.toNat, hrlt⟩) c.toNat
      = some (List.get (List.get g ⟨r.toNat, hrlt⟩) ⟨c.toNat, hclt⟩) :=
    List.get?_eq_get hclt
  exact ⟨_, by rw [getCellI, if_pos ⟨hr0, hc0⟩, hrow, Option.some_bind, hcell]⟩

lemma move_spec (s : BoardState) (m : Move) (hw : WFGrid s.grid)
    (h1 : inBoundsI (posToIndices m.from').1 (posToIndices m.from').2 = true)
    (h2 : inBoundsI (posToIndices m.to').1 (posToIndices m.to').2 = true) :
    ∃ p t,
      getCellI s.grid (posToIndices m.from').1 (posToIndices m.from').2 = some p ∧
      getCellI s.grid (posToIndices m.to').1 (posToIndices m.to').2 = some t ∧
      ClassicBoard.move s m =
        (true,
          { grid :=
              setCellI
                (setCellI s.grid (posToIndices m.to').1 (posToIndices m.to').2
                  { p with hasMoved := some true })
                (posToIndices m.from').1 (posToIndices m.from').2 emptyPiece
          , turn := if s.turn = .white then .black else .white
          , moveHistory := s.moveHistory ++ [m]
          , capturedPieces := s.capturedPieces ++ [t] }) := by
  obtain ⟨p, hp⟩ := getCellI_isSome_of_WF hw h1
  obtain ⟨t, ht⟩ := getCellI_isSome_of_WF hw h2
  exact ⟨p, t, hp, ht, by rw [ClassicBoard.move, hp, ht]⟩

/-- C4: every `Board.move` whose source and destination are in bounds (on a
well-formed 8×8 grid) reports success and appends exactly one element — the
destination square's record, possibly the empty piece — to `capturedPieces`,
because `if (targetPiece)` is truthy for every in-bounds destination. -/
theorem board_move_always_appends_capture (s : BoardState) (m : Move)
    (hw : WFGrid s.grid)
    (h1 : inBoundsI (posToIndices m.from').1 (posToIndices m.from').2 = true)
    (h2 : inBoundsI (posToIndices m.to').1 (posToIndices m.to').2 = true) :
    (ClassicBoard.move s m).1 = true ∧
    ∃ t, getCellI s.grid (posToIndices m.to').1 (posToIndices m.to').2 = some t ∧
      (ClassicBoard.move s m).2.capturedPieces = s.capturedPieces ++ [t] ∧
      (ClassicBoard.move s m).2.capturedPieces.length = s.capturedPieces.length + 1 := by
  obtain ⟨p, t, hp, ht, hmv⟩ := move_spec s m hw h1 h2
  rw [hmv]
  exact ⟨rfl, t, ht, rfl, by simp⟩

theorem board_move_always_appends_capture_witness :
    WFGrid createInitialBoard.grid ∧
    inBoundsI (posToIndices (⟨⟨'e', 2⟩, ⟨'e', 4⟩, none, none⟩ : Move).from').1
      (posToIndices (⟨⟨'e', 2⟩, ⟨'e', 4⟩, none, none⟩ : Move).from').2 = true ∧
    inBoundsI (posToIndices (⟨⟨'e', 2⟩, ⟨'e', 4⟩, none, none⟩ : Move).to').1
      (posToIndices (⟨⟨'e', 2⟩, ⟨'e', 4⟩, none, none⟩ : Move).to').2 = true ∧
    ((ClassicBoard.move createInitialBoard ⟨⟨'e', 2⟩, ⟨'e', 4⟩, none, none⟩).1 = true ∧
     ∃ t, getCellI createInitialBoard.grid
        (posToIndices (⟨⟨'e', 2⟩, ⟨'e', 4⟩, none, none⟩ : Move).to').1
        (posToIndices (⟨⟨'e', 2⟩, ⟨'e', 4⟩, none, none⟩ : Move).to').2 = some t ∧
      (ClassicBoard.move createInitialBoard ⟨⟨'e', 2⟩, ⟨'e', 4⟩, none, none⟩).2.capturedPieces
        = createInitialBoard.capturedPieces ++ [t] ∧
      (ClassicBoard.move createInitialBoard ⟨⟨'e', 2⟩, ⟨'e', 4⟩, none, none⟩).2.capturedPieces.length
        = createInitialBoard.capturedPieces.length + 1) :=
  ⟨by decide, by decide, by decide,
    board_move_always_appends_capture createInitialBoard ⟨⟨'e', 2⟩, ⟨'e', 4⟩, none, none⟩
      (by decide) (by decide) (by decide)⟩

/-- C5: with a configured quota of at most one, a structurally valid (both
squares in-bounds, 8×8 grid) `Engine.move` flips the turn to the opposite
color, grows the history by exactly one, and — when the destination held a
piece — grows the captured list by exactly one. -/
theorem engine_move_flips_turn_when_quota_le_one (e : EngineState) (m : Move)
    (hw : WFGrid e.board.grid) (hq : e.moveLimitValue ≤ 1)
    (h1 : inBoundsI (posToIndices m.from').1 (posToIndices m.from').2 = true)
    (h2 : inBoundsI (posToIndices m.to').1 (posToIndices m.to').2 = true) :
    (ChessEngine.move e m).board.turn = oppositeColor e.board.turn ∧
    (ChessEngine.move e m).board.moveHistory.length = e.board.moveHistory.length + 1 ∧
    ((∃ t, getCellI e.board.grid (posToIndices m.to').1 (posToIndices m.to').2 = some t ∧
        t.type ≠ none) →
      (ChessEngine.move e m).board.capturedPieces.length
        = e.board.capturedPieces.length + 1) := by
  obtain ⟨p, t, hp, ht, hmv⟩ := move_spec e.board m hw h1 h2
  have hq' : ¬ e.moveLimitValue > 1 := by omega
  rw [ChessEngine.move]
  simp only [hmv, Bool.not_true, Bool.false_eq_true, if_false, if_neg hq']
  refine ⟨?_, by simp, fun _ => by simp⟩
  cases h : e.board.turn <;> simp [oppositeColor, h]

theorem engine_move_flips_turn_when_quota_le_one_witness :
    WFGrid engineInit.board.grid ∧
    engineInit.moveLimitValue ≤ 1 ∧
    inBoundsI (posToIndices (⟨⟨'a', 2⟩, ⟨'a', 7⟩, none, none⟩ : Move).from').1
      (posToIndices (⟨⟨'a', 2⟩, ⟨'a', 7⟩, none, none⟩ : Move).from').2 = true ∧
    inBoundsI (posToIndices (⟨⟨'a', 2⟩, ⟨'a', 7⟩, none, none⟩ : Move).to').1
      (posToIndices (⟨⟨'a', 2⟩, ⟨'a', 7⟩, none, none⟩ : Move).to').2 = true ∧
    ((ChessEngine.move engineInit ⟨⟨'a', 2⟩, ⟨'a', 7⟩, none, none⟩).board.turn
        = oppositeColor engineInit.board.turn ∧
     (ChessEngine.move engineInit ⟨⟨'a', 2⟩, ⟨'a', 7⟩, none, none⟩).board.moveHistory.length
        = engineInit.board.moveHistory.length + 1 ∧
     ((∃ t, getCellI engineInit.board.grid
          (posToIndices (⟨⟨'a', 2⟩, ⟨'a', 7⟩, none, none⟩ : Move).to').1
          (posToIndices (⟨⟨'a', 2⟩, ⟨'a', 7⟩, none, none⟩ : Move).to').2 = some t ∧
          t.type ≠ none) →
       (ChessEngine.move engineInit ⟨⟨'a', 2⟩, ⟨'a', 7⟩, none, none⟩).board.capturedPieces.length
          = engineInit.board.capturedPieces.length + 1)) :=
  ⟨by decide, by decide, by decide, by decide,
    engine_move_flips_turn_when_quota_le_one engineInit ⟨⟨'a', 2⟩, ⟨'a', 7⟩, none, none⟩
      (by decide) (by decide) (by decide) (by decide)⟩

lemma foldl_override_preserves_original {S : Type} :
    ∀ (os : List (PieceType × S)) (st : RuleSetState S),
      (os.foldl (fun t q => RuleSetState.overrideStrategy t q.1 q.2) st).originalStrategies
        = st.originalStrategies := by
  intro os
  induction os with
  | nil => intro st; rfl
  | cons a os ih => intro st; rw [List.foldl_cons, ih]; rfl

/-- C9: the binding algebra of `StandardRuleSet`.  After any sequence of
overrides (of `k` or any other kind), `restoreStrategy(k)` makes
`getMovementStrategy(k)` return the retained original binding for `k`; a
single override of `k` leaves every other kind's binding unchanged; and a
fresh `StandardRuleSet` binds every kind to its standard strategy. -/
theorem strategy_override_restore_roundtrip {S : Type} (st : RuleSetState S)
    (k : PieceType) (os : List (PieceType × S)) :
    RuleSetState.getMovementStrategy
        (RuleSetState.restoreStrategy
          (os.foldl (fun t q => RuleSetState.overrideStrategy t q.1 q.2) st) k) k
      = st.originalStrategies k ∧
    (∀ (k' : PieceType) (s : S), k' ≠ k →
      RuleSetState.getMovementStrategy (RuleSetState.overrideStrategy st k s) k'
        = RuleSetState.getMovementStrategy st k') ∧
    (∀ k' : PieceType,
      RuleSetState.getMovementStrategy standardRuleSet k' = standardStrategies k') := by
  refine ⟨?_, ?_, fun k' => rfl⟩
  · rw [RuleSetState.getMovementStrategy, RuleSetState.restoreStrategy]
    simp [foldl_override_preserves_original]
  · intro k' s hne
    rw [RuleSetState.getMovementStrategy, RuleSetState.overrideStrategy]
    simp [hne, RuleSetState.getMovementStrategy]

theorem strategy_override_restore_roundtrip_witness :
    (RuleSetState.getMovementStrategy
        (RuleSetState.restoreStrategy
          (([(PieceType.pawn, 7), (PieceType.pawn, 9)] : List (PieceType × Nat)).foldl
            (fun t q => RuleSetState.overrideStrategy t q.1 q.2)
            (⟨fun _ => 0, fun _ => 1⟩ : RuleSetState Nat)) PieceType.pawn) PieceType.pawn
      = 0) ∧
    (PieceType.rook ≠ PieceType.pawn) ∧
    (RuleSetState.getMovementStrategy
        (RuleSetState.overrideStrategy (⟨fun _ => 0, fun _ => 1⟩ : RuleSetState Nat)
          PieceType.pawn 5) PieceType.rook
      = RuleSetState.getMovementStrategy (⟨fun _ => 0, fun _ => 1⟩ : RuleSetState Nat)
          PieceType.rook) :=
  ⟨(strategy_override_restore_roundtrip (⟨fun _ => 0, fun _ => 1⟩ : RuleSetState Nat)
      PieceType.pawn [(PieceType.pawn, 7), (PieceType.pawn, 9)]).1,
   by decide,
   (strategy_override_restore_roundtrip (⟨fun _ => 0, fun _ => 1⟩ : RuleSetState Nat)
      PieceType.pawn []).2.1 PieceType.rook 5 (by decide)⟩

lemma toNat_charOfCol {c : Int} (h1 : -1 ≤ c) (h2 : c ≤ 8) :
    ((charOfCol c).toNat : Int) = 97 + c := by
  interval_cases c <;> decide

lemma indicesToPosition_inj {r1 c1 r2 c2 : Int}
    (hc1a : -1 ≤ c1) (hc1b : c1 ≤ 8) (hc2a : -1 ≤ c2) (hc2b : c2 ≤ 8)
    (h : indicesToPosition r1 c1 = indicesToPosition r2 c2) : r1 = r2 ∧ c1 = c2 := by
  rw [indicesToPosition, indicesToPosition, Position.mk.injEq] at h
  have hx := congrArg (fun ch => (ch.toNat : Int)) h.1
  simp only at hx
  rw [toNat_charOfCol hc1a hc1b, toNat_charOfCol hc2a hc2b] at hx
  exact ⟨by omega, by omega⟩

lemma rayWalk_succ_out {g my src dR dC fuel r c} (h : inBoundsI r c = false) :
    rayWalk g my src dR dC (fuel + 1) r c = [] := by
  rw [rayWalk, if_neg (by simp [h])]

lemma rayWalk_succ_none {g my src dR dC fuel r c} (hb : inBoundsI r c = true)
    (hcell : getCellI g r c = none) :
    rayWalk g my src dR dC (fuel + 1) r c = [] := by
  rw [rayWalk, if_pos hb, hcell]

lemma rayWalk_succ_empty {g my src dR dC fuel r c cell}
    (hb : inBoundsI r c = true) (hcell : getCellI g r c = some cell)
    (ht : cell.type = none) :
    rayWalk g my src dR dC (fuel + 1) r c =
      ⟨src, indicesToPosition r c, none, none⟩ ::
        rayWalk g my src dR dC fuel (r + dR) (c + dC) := by
  rw [rayWalk, if_pos hb, hcell]
  simp only [ht, if_true]

lemma rayWalk_succ_opp {g my src dR dC fuel r c cell}
    (hb : inBoundsI r c = true) (hcell : getCellI g r c = some cell)
    (ht : ¬ cell.type = none) (hc : ¬ cell.color = my) :
    rayWalk g my src dR dC (fuel + 1) r c = [⟨src, indicesToPosition r c, some cell, none⟩] := by
  rw [rayWalk, if_pos hb, hcell]
  simp only [if_neg ht, if_pos (And.intro ht hc)]

lemma rayWalk_succ_friendly {g my src dR dC fuel r c cell}
    (hb : inBoundsI r c = true) (hcell : getCellI g r c = some cell)
    (ht : ¬ cell.type = none) (hc : cell.color = my) :
    rayWalk g my src dR dC (fuel + 1) r c = [] := by
  rw [rayWalk, if_pos hb, hcell]
  simp only [ht, hc, ne_eq, not_true_eq_false, and_false, if_false, not_false_eq_true, and_true,
    if_neg ht]

lemma stepShift (a e : Int) (n : Nat) :
    a + ((n + 1 : Nat) : Int) * e = a + e + (n : Int) * e := by
  push_cast
  ring

lemma rayWalk_mem (g : Grid) (my : Option PlayerColor) (src : Position) (dR dC : Int) :
    ∀ (fuel : Nat) (r c : Int) (mv : Move),
      mv ∈ rayWalk g my src dR dC fuel r c ↔
      ∃ i : Nat, i < fuel ∧
        (∀ j : Nat, j < i → inBoundsI (r + (j : Int) * dR) (c + (j : Int) * dC) = true ∧
          ∃ q, getCellI g (r + (j : Int) * dR) (c + (j : Int) * dC) = some q ∧ q.type = none) ∧
        inBoundsI (r + (i : Int) * dR) (c + (i : Int) * dC) = true ∧
        ((∃ q, getCellI g (r + (i : Int) * dR) (c + (i : Int) * dC) = some q ∧ q.type = none ∧
            mv = ⟨src, indicesToPosition (r + (i : Int) * dR) (c + (i : Int) * dC), none, none⟩) ∨
         (∃ q, getCellI g (r + (i : Int) * dR) (c + (i : Int) * dC) = some q ∧ q.type ≠ none ∧
            q.color ≠ my ∧
            mv = ⟨src, indicesToPosition (r + (i : Int) * dR) (c + (i : Int) * dC), some q, none⟩)) := by
  intro fuel
  induction fuel with
  | zero =>
    intro r c mv
    simp [rayWalk]
  | succ fuel ih =>
    intro r c mv
    by_cases hb : inBoundsI r c = true
    · rcases hcell : getCellI g r c with _ | cell
      · rw [rayWalk_succ_none hb hcell]
        simp only [List.not_mem_nil, false_iff, not_exists, not_and]
        intro i hi hall hin
        rcases Nat.eq_zero_or_pos i with hz | hpos
        · subst hz
          simp only [Nat.cast_zero, zero_mul, add_zero] at hin ⊢
          rintro (⟨q, hq, _⟩ | ⟨q, hq, _⟩) <;> rw [hcell] at hq <;> exact Option.noConfusion hq
        · obtain ⟨_, q, hq, _⟩ := hall 0 hpos
          simp only [Nat.cast_zero, zero_mul, add_zero] at hq
          rw [hcell] at hq
          exact absurd hq (by simp)
      · by_cases ht : cell.type = none
        · rw [rayWalk_succ_empty hb hcell ht, List.mem_cons, ih]
          constructor
          · rintro (heq | ⟨i, hi, hall, hin, hlast⟩)
            · refine ⟨0, Nat.succ_pos _, fun j hj => absurd hj (Nat.not_lt_zero j), ?_,
                Or.inl ⟨cell, ?_, ht, ?_⟩⟩
              · simpa only [Nat.cast_zero, zero_mul, add_zero] using hb
              · simpa only [Nat.cast_zero, zero_mul, add_zero] using hcell
              · simpa only [Nat.cast_zero, zero_mul, add_zero] using heq
            · refine ⟨i + 1, by omega, ?_, ?_, ?_⟩
              · intro j hj
                rcases Nat.eq_zero_or_pos j with hz | hpos
                · subst hz
                  simp only [Nat.cast_zero, zero_mul, add_zero]
                  exact ⟨hb, cell, hcell, ht⟩
                · obtain ⟨j', rfl⟩ : ∃ j', j = j' + 1 := ⟨j - 1, by omega⟩
                  rw [stepShift r dR j', stepShift c dC j']
                  exact hall j' (by omega)
              · rw [stepShift, stepShift]
                exact hin
              · rw [stepShift r dR i, stepShift c dC i]
                exact hlast
          · rintro ⟨i, hi, hall, hin, hlast⟩
            rcases Nat.eq_zero_or_pos i with hz | hpos
            · subst hz
              simp only [Nat.cast_zero, zero_mul, add_zero] at hlast
              rcases hlast with ⟨q, hq, hqt, hmv⟩ | ⟨q, hq, hqt, _, _⟩
              · rw [hcell] at hq
                obtain rfl : cell = q := Option.some.inj hq
                exact Or.inl hmv
              · rw [hcell] at hq
                obtain rfl : cell = q := Option.some.inj hq
                exact absurd ht hqt
            · refine Or.inr ⟨i - 1, by omega, ?_, ?_, ?_⟩
              · intro j hj
                have := hall (j + 1) (by omega)
                rw [stepShift, stepShift] at this
                exact this
              · have : i - 1 + 1 = i := by omega
                rw [← this] at hin
                rw [stepShift, stepShift] at hin
                exact hin
              · have hieq : i - 1 + 1 = i := by omega
                rw [← hieq] at hlast
                rw [stepShift r dR (i - 1), stepShift c dC (i - 1)] at hlast
                exact hlast
        · by_cases hcol : cell.color = my
          · rw [rayWalk_succ_friendly hb hcell ht hcol]
            simp only [List.not_mem_nil, false_iff, not_exists, not_and]
            intro i hi hall hin
            rcases Nat.eq_zero_or_pos i with hz | hpos
            · subst hz
              simp only [Nat.cast_zero, zero_mul, add_zero] at hin ⊢
              rintro (⟨q, hq, hqt, _⟩ | ⟨q, hq, _, hqc, _⟩)
              · rw [hcell] at hq
                obtain rfl : cell = q := Option.some.inj hq
                exact ht hqt
              · rw [hcell] at hq
                obtain rfl : cell = q := Option.some.inj hq
                exact hqc hcol
            · obtain ⟨_, q, hq, hqt⟩ := hall 0 hpos
              simp only [Nat.cast_zero, zero_mul, add_zero] at hq
              rw [hcell] at hq
              obtain rfl : cell = q := Option.some.inj hq
              exact absurd hqt ht
          · rw [rayWalk_succ_opp hb hcell ht hcol, List.mem_singleton]
            constructor
            · intro heq
              refine ⟨0, Nat.succ_pos _, fun j hj => absurd hj (Nat.not_lt_zero j), ?_,
                Or.inr ⟨cell, ?_, ht, hcol, ?_⟩⟩
              · simpa only [Nat.cast_zero, zero_mul, add_zero] using hb
              · simpa only [Nat.cast_zero, zero_mul, add_zero] using hcell
              · simpa only [Nat.cast_zero, zero_mul, add_zero] using heq
            · rintro ⟨i, hi, hall, hin, hlast⟩
              rcases Nat.eq_zero_or_pos i with hz | hpos
              · subst hz
                simp only [Nat.cast_zero, zero_mul, add_zero] at hlast
                rcases hlast with ⟨q, hq, hqt, _⟩ | ⟨q, hq, _, _, hmv⟩
                · rw [hcell] at hq
                  obtain rfl : cell = q := Option.some.inj hq
                  exact absurd hqt ht
                · rw [hcell] at hq
                  obtain rfl : cell = q := Option.some.inj hq
                  exact hmv
              · obtain ⟨_, q, hq, hqt⟩ := hall 0 hpos
                simp only [Nat.cast_zero, zero_mul, add_zero] at hq
                rw [hcell] at hq
                obtain rfl : cell = q := Option.some.inj hq
                exact absurd hqt ht
    · have hb' : inBoundsI r c = false := by
        cases h : inBoundsI r c
        · rfl
        · exact absurd h hb
      rw [rayWalk_succ_out hb']
      simp only [List.not_mem_nil, false_iff, not_exists, not_and]
      intro i hi hall hin
      rcases Nat.eq_zero_or_pos i with hz | hpos
      · subst hz
        simp only [Nat.cast_zero, zero_mul, add_zero] at hin
        exact absurd hin hb
      · obtain ⟨hbj, _⟩ := hall 0 hpos
        simp only [Nat.cast_zero, zero_mul, add_zero] at hbj
        exact absurd hbj hb

lemma slideMoves_mem (dirs : List (Int × Int)) (piece : Piece) (pos : Position) (g : Grid)
    (mv : Move) :
    mv ∈ slideMoves dirs piece pos g ↔ SlideSpec dirs piece pos g mv := by
  rw [slideMoves, List.mem_flatMap, SlideSpec]
  constructor
  · rintro ⟨d, hd, hmem⟩
    exact ⟨d, hd, (rayWalk_mem g piece.color pos d.1 d.2 8 _ _ mv).mp hmem⟩
  · rintro ⟨d, hd, hspec⟩
    exact ⟨d, hd, (rayWalk_mem g piece.color pos d.1 d.2 8 _ _ mv).mpr hspec⟩

lemma slideSpec_append (d1 d2 : List (Int × Int)) (piece : Piece) (pos : Position) (g : Grid)
    (mv : Move) :
    SlideSpec (d1 ++ d2) piece pos g mv ↔
      SlideSpec d1 piece pos g mv ∨ SlideSpec d2 piece pos g mv := by
  rw [SlideSpec, SlideSpec, SlideSpec]
  constructor
  · rintro ⟨d, hd, hrest⟩
    rcases List.mem_append.mp hd with h | h
    · exact Or.inl ⟨d, h, hrest⟩
    · exact Or.inr ⟨d, h, hrest⟩
  · rintro (⟨d, hd, hrest⟩ | ⟨d, hd, hrest⟩)
    · exact ⟨d, List.mem_append_left _ hd, hrest⟩
    · exact ⟨d, List.mem_append_right _ hd, hrest⟩

/-- C7: ray semantics of the sliding strategies.  A move is emitted by the
rook (resp. bishop, queen) strategy exactly when, along one of its
directions, every square strictly before the target is in-bounds and empty
and the target square is in-bounds and either empty (plain move) or holds
an opponent piece (the capture that ends the ray).  In particular no square
beyond the first occupied square of a ray is ever emitted, and a
friendly-occupied square is never emitted. -/
theorem sliding_rays_stop_at_first_occupied (piece : Piece) (pos : Position) (g : Grid)
    (mv : Move) :
    (mv ∈ rookStrategy piece pos g ↔ SlideSpec rookDirections piece pos g mv) ∧
    (mv ∈ bishopStrategy piece pos g ↔ SlideSpec bishopDirections piece pos g mv) ∧
    (mv ∈ queenStrategy piece pos g ↔
      SlideSpec (rookDirections ++ bishopDirections) piece pos g mv) := by
  refine ⟨slideMoves_mem _ _ _ _ _, slideMoves_mem _ _ _ _ _, ?_⟩
  rw [queenStrategy, List.mem_append, rookStrategy, bishopStrategy,
    slideMoves_mem, slideMoves_mem, slideSpec_append]

theorem sliding_rays_stop_at_first_occupied_witness :
    (⟨⟨'d', 4⟩, ⟨'d', 5⟩, none, none⟩ : Move) ∈
        rookStrategy (mkPiece .rook .white) ⟨'d', 4⟩ createInitialBoard.grid ↔
      SlideSpec rookDirections (mkPiece .rook .white) ⟨'d', 4⟩ createInitialBoard.grid
        ⟨⟨'d', 4⟩, ⟨'d', 5⟩, none, none⟩ :=
  (sliding_rays_stop_at_first_occupied (mkPiece .rook .white) ⟨'d', 4⟩
    createInitialBoard.grid ⟨⟨'d', 4⟩, ⟨'d', 5⟩, none, none⟩).1

lemma slideSpec_to_shape {dirs : List (Int × Int)} {piece : Piece} {pos : Position} {g : Grid}
    {mv : Move} (h : SlideSpec dirs piece pos g mv) :
    ∃ d ∈ dirs, ∃ k : Int, 1 ≤ k ∧ k ≤ 8 ∧
      inBoundsI ((posToIndices pos).1 + k * d.1) ((posToIndices pos).2 + k * d.2) = true ∧
      mv.to' = indicesToPosition ((posToIndices pos).1 + k * d.1)
        ((posToIndices pos).2 + k * d.2) := by
  obtain ⟨d, hd, i, hi, _, hin, hlast⟩ := h
  have harr : ∀ a e : Int, a + ((i : Int) + 1) * e = a + e + (i : Int) * e := by
    intro a e
    ring
  refine ⟨d, hd, (i : Int) + 1, by omega, by omega, ?_, ?_⟩
  · rw [harr, harr]
    exact hin
  · rw [harr, harr]
    rcases hlast with ⟨q, _, _, hmv⟩ | ⟨q, _, _, _, hmv⟩ <;> rw [hmv]

/-- C10: the queen's move list is exactly the rook's moves followed by the
bishop's moves for the same piece, position and board, and the two lists
are disjoint (an orthogonal ray square and a diagonal ray square from the
same origin never coincide). -/
theorem queen_is_rook_then_bishop_disjoint (piece : Piece) (pos : Position) (g : Grid) :
    queenStrategy piece pos g = rookStrategy piece pos g ++ bishopStrategy piece pos g ∧
    List.Disjoint (rookStrategy piece pos g) (bishopStrategy piece pos g) := by
  refine ⟨rfl, ?_⟩
  intro mv hr hbi
  obtain ⟨d1, hd1, k1, hk1a, hk1b, hin1, hto1⟩ :=
    slideSpec_to_shape ((slideMoves_mem rookDirections piece pos g mv).mp hr)
  obtain ⟨d2, hd2, k2, hk2a, hk2b, hin2, hto2⟩ :=
    slideSpec_to_shape ((slideMoves_mem bishopDirections piece pos g mv).mp hbi)
  rw [hto1] at hto2
  simp only [inBoundsI, decide_eq_true_eq] at hin1 hin2
  obtain ⟨hreq, hceq⟩ := indicesToPosition_inj (by omega) (by omega) (by omega) (by omega) hto2
  fin_cases hd1 <;> fin_cases hd2 <;>
    simp only [mul_zero, mul_one, mul_neg_one, add_zero] at hreq hceq <;> omega

lemma getCellI_inBounds {g : Grid} (hw : WFGrid g) {r c : Int} {p : Piece}
    (h : getCellI g r c = some p) : inBoundsI r c = true := by
  rw [getCellI] at h
  by_cases h0 : 0 ≤ r ∧ 0 ≤ c
  · rw [if_pos h0] at h
    rcases hrow : List.get? g r.toNat with _ | row
    · rw [hrow] at h
      exact Option.noConfusion h
    · rw [hrow, Option.some_bind] at h
      have hr : r.toNat < List.length g := List.get?_eq_some.mp hrow |>.choose
      have hmem : row ∈ g := List.get?_mem hrow
      have hc : c.toNat < List.length row := List.get?_eq_some.mp h |>.choose
      rw [hw.1] at hr
      rw [hw.2 row hmem] at hc
      simp only [inBoundsI, decide_eq_true_eq]
      omega
  · rw [if_neg h0] at h
    exact Option.noConfusion h

lemma isEmptyB_inBounds {g : Grid} (hw : WFGrid g) {r c : Int}
    (h : isEmptyB g r c = true) : inBoundsI r c = true := by
  rw [isEmptyB] at h
  rcases hcell : getCellI g r c with _ | q
  · rw [hcell] at h
    exact Bool.noConfusion h
  · exact getCellI_inBounds hw hcell

lemma colOfX_charOfCol {a : Int} (h1 : -1 ≤ a) (h2 : a ≤ 8) : colOfX (charOfCol a) = a := by
  rw [colOfX]
  have := toNat_charOfCol h1 h2
  omega

lemma charOfCol_inj {a b : Int} (ha1 : -1 ≤ a) (ha2 : a ≤ 8) (hb1 : -1 ≤ b) (hb2 : b ≤ 8)
    (h : charOfCol a = charOfCol b) : a = b := by
  have hx := congrArg (fun ch => (ch.toNat : Int)) h
  simp only at hx
  rw [toNat_charOfCol ha1 ha2, toNat_charOfCol hb1 hb2] at hx
  omega

/-- C8: pawn movement shape.  With a `c`-colored pawn at an in-bounds
position on a well-formed grid: (a) from the starting row with both forward
squares empty, the same-column (forward) candidates are exactly the
one-square and two-square advances, both capture-free; (b) from any other
row there is at most one forward candidate; (c) a forward-diagonal
candidate to column offset `dc ∈ {−1, 1}` exists iff that diagonal square
is on the board and holds an opponent piece. -/
theorem pawn_moves_shape (g : Grid) (pos : Position) (piece : Piece) (c : PlayerColor)
    (hw : WFGrid g)
    (hpos : inBoundsI (8 - pos.y) (colOfX pos.x) = true)
    (htype : piece.type = some .pawn)
    (hcolor : piece.color = some c) :
    ((8 - pos.y) = pawnStartRow c →
      isEmptyB g ((8 - pos.y) + pawnForward c) (colOfX pos.x) = true →
      isEmptyB g ((8 - pos.y) + 2 * pawnForward c) (colOfX pos.x) = true →
      (pawnStrategy piece pos g).filter
          (fun m => decide (colOfX m.to'.x = colOfX pos.x)) =
        [⟨pos, indicesToPosition ((8 - pos.y) + pawnForward c) (colOfX pos.x), none, none⟩,
         ⟨pos, indicesToPosition ((8 - pos.y) + 2 * pawnForward c) (colOfX pos.x), none, none⟩]) ∧
    ((8 - pos.y) ≠ pawnStartRow c →
      ((pawnStrategy piece pos g).filter
          (fun m => decide (colOfX m.to'.x = colOfX pos.x))).length ≤ 1) ∧
    (∀ dc : Int, dc = -1 ∨ dc = 1 →
      ((∃ mv ∈ pawnStrategy piece pos g,
          mv.to' = indicesToPosition ((8 - pos.y) + pawnForward c) (colOfX pos.x + dc)) ↔
        (inBoundsI ((8 - pos.y) + pawnForward c) (colOfX pos.x + dc) = true ∧
         isOppB g ((8 - pos.y) + pawnForward c) (colOfX pos.x + dc) piece.color = true))) := by
  have hfw : (if piece.color = some PlayerColor.white then (-1 : Int) else 1) = pawnForward c := by
    rw [hcolor]
    cases c <;> simp [pawnForward]
  have hsr : (if piece.color = some PlayerColor.white then (6 : Int) else 1) = pawnStartRow c := by
    rw [hcolor]
    cases c <;> simp [pawnStartRow]
  have hcb : 0 ≤ colOfX pos.x ∧ colOfX pos.x < 8 := by
    simp only [inBoundsI, decide_eq_true_eq] at hpos
    omega
  have ecol : colOfX (charOfCol (colOfX pos.x)) = colOfX pos.x :=
    colOfX_charOfCol (by omega) (by omega)
  have ecolm : colOfX (charOfCol (colOfX pos.x + -1)) = colOfX pos.x + -1 :=
    colOfX_charOfCol (by omega) (by omega)
  have ecolp : colOfX (charOfCol (colOfX pos.x + 1)) = colOfX pos.x + 1 :=
    colOfX_charOfCol (by omega) (by omega)
  have hnem : ¬(colOfX pos.x + -1 = colOfX pos.x) := by omega
  have hnep : ¬(colOfX pos.x + 1 = colOfX pos.x) := by omega
  refine ⟨?_, ?_, ?_⟩
  · intro hrow h1 h2
    have hb1 := isEmptyB_inBounds hw h1
    have hb2 := isEmptyB_inBounds hw h2
    have gA : (inBoundsI ((8 - pos.y) + pawnForward c) (colOfX pos.x) &&
        isEmptyB g ((8 - pos.y) + pawnForward c) (colOfX pos.x)) = true := by
      rw [hb1, h1]
      rfl
    have gB : (inBoundsI ((8 - pos.y) + 2 * pawnForward c) (colOfX pos.x) &&
        isEmptyB g ((8 - pos.y) + 2 * pawnForward c) (colOfX pos.x)) = true := by
      rw [hb2, h2]
      rfl
    simp only [pawnStrategy, posToIndices, List.flatMap_cons, List.flatMap_nil]
    rw [hfw, hsr, if_pos gA, if_pos hrow, if_pos gB]
    by_cases gC : (inBoundsI ((8 - pos.y) + pawnForward c) (colOfX pos.x + -1) &&
        isOppB g ((8 - pos.y) + pawnForward c) (colOfX pos.x + -1) piece.color) = true <;>
      by_cases gD : (inBoundsI ((8 - pos.y) + pawnForward c) (colOfX pos.x + 1) &&
          isOppB g ((8 - pos.y) + pawnForward c) (colOfX pos.x + 1) piece.color) = true <;>
        simp [gC, gD, List.filter, indicesToPosition, ecol, ecolm, ecolp, hnem, hnep]
  · intro hrow
    simp only [pawnStrategy, posToIndices, List.flatMap_cons, List.flatMap_nil]
    rw [hfw, hsr, if_neg hrow]
    by_cases gA : (inBoundsI ((8 - pos.y) + pawnForward c) (colOfX pos.x) &&
        isEmptyB g ((8 - pos.y) + pawnForward c) (colOfX pos.x)) = true <;>
      by_cases gC : (inBoundsI ((8 - pos.y) + pawnForward c) (colOfX pos.x + -1) &&
          isOppB g ((8 - pos.y) + pawnForward c) (colOfX pos.x + -1) piece.color) = true <;>
        by_cases gD : (inBoundsI ((8 - pos.y) + pawnForward c) (colOfX pos.x + 1) &&
            isOppB g ((8 - pos.y) + pawnForward c) (colOfX pos.x + 1) piece.color) = true <;>
          simp [gA, gC, gD, List.filter, indicesToPosition, ecol, ecolm, ecolp, hnem, hnep]
  · intro dc hdc
    have hxm : charOfCol (colOfX pos.x) ≠ charOfCol (colOfX pos.x + -1) := fun h => by
      have := charOfCol_inj (by omega) (by omega) (by omega) (by omega) h
      omega
    have hxp : charOfCol (colOfX pos.x) ≠ charOfCol (colOfX pos.x + 1) := fun h => by
      have := charOfCol_inj (by omega) (by omega) (by omega) (by omega) h
      omega
    have hxmp : charOfCol (colOfX pos.x + -1) ≠ charOfCol (colOfX pos.x + 1) := fun h => by
      have := charOfCol_inj (by omega) (by omega) (by omega) (by omega) h
      omega
    have hxne : ∀ (r1 r2 c1 c2 : Int), charOfCol c1 ≠ charOfCol c2 →
        indicesToPosition r1 c1 ≠ indicesToPosition r2 c2 := by
      intro r1 r2 c1 c2 hne h
      rw [indicesToPosition, indicesToPosition, Position.mk.injEq] at h
      exact hne h.1
    simp only [pawnStrategy, posToIndices, List.flatMap_cons, List.flatMap_nil]
    rw [hfw, hsr]
    rcases hdc with rfl | rfl
    · constructor
      · rintro ⟨mv, hmem, hto⟩
        rcases List.mem_append.mp hmem with hf | hd
        · exfalso
          by_cases gA : (inBoundsI ((8 - pos.y) + pawnForward c) (colOfX pos.x) &&
              isEmptyB g ((8 - pos.y) + pawnForward c) (colOfX pos.x)) = true
          · rw [if_pos gA] at hf
            rcases List.mem_cons.mp hf with rfl | hf2
            · exact hxne _ _ _ _ hxm hto
            · by_cases gR : (8 - pos.y) = pawnStartRow c
              · rw [if_pos gR] at hf2
                by_cases gB : (inBoundsI ((8 - pos.y) + 2 * pawnForward c) (colOfX pos.x) &&
                    isEmptyB g ((8 - pos.y) + 2 * pawnForward c) (colOfX pos.x)) = true
                · rw [if_pos gB] at hf2
                  rcases List.mem_singleton.mp hf2 with rfl
                  exact hxne _ _ _ _ hxm hto
                · rw [if_neg gB] at hf2
                  exact List.not_mem_nil _ hf2
              · rw [if_neg gR] at hf2
                exact List.not_mem_nil _ hf2
          · rw [if_neg gA] at hf
            exact List.not_mem_nil _ hf
        · rcases List.mem_append.mp hd with hdm | hdp
          · by_cases gC : (inBoundsI ((8 - pos.y) + pawnForward c) (colOfX pos.x + -1) &&
                isOppB g ((8 - pos.y) + pawnForward c) (colOfX pos.x + -1) piece.color) = true
            · rw [Bool.and_eq_true] at gC
              exact gC
            · rw [if_neg gC] at hdm
              exact absurd hdm (List.not_mem_nil _)
          · exfalso
            rw [List.append_nil] at hdp
            by_cases gD : (inBoundsI ((8 - pos.y) + pawnForward c) (colOfX pos.x + 1) &&
                isOppB g ((8 - pos.y) + pawnForward c) (colOfX pos.x + 1) piece.color) = true
            · rw [if_pos gD] at hdp
              rcases List.mem_singleton.mp hdp with rfl
              exact hxne _ _ _ _ (Ne.symm hxmp) hto
            · rw [if_neg gD] at hdp
              exact List.not_mem_nil _ hdp
      · rintro ⟨hin, hopp⟩
        have gC : (inBoundsI ((8 - pos.y) + pawnForward c) (colOfX pos.x + -1) &&
            isOppB g ((8 - pos.y) + pawnForward c) (colOfX pos.x + -1) piece.color) = true := by
          rw [hin, hopp]
          rfl
        refine ⟨⟨pos, indicesToPosition ((8 - pos.y) + pawnForward c) (colOfX pos.x + -1),
          getCellI g ((8 - pos.y) + pawnForward c) (colOfX pos.x + -1), none⟩,
          List.mem_append_right _ (List.mem_append_left _ ?_), rfl⟩
        rw [if_pos gC]
        exact List.mem_singleton_self _
    · constructor
      · rintro ⟨mv, hmem, hto⟩
        rcases List.mem_append.mp hmem with hf | hd
        · exfalso
          by_cases gA : (inBoundsI ((8 - pos.y) + pawnForward c) (colOfX pos.x) &&
              isEmptyB g ((8 - pos.y) + pawnForward c) (colOfX pos.x)) = true
          · rw [if_pos gA] at hf
            rcases List.mem_cons.mp hf with rfl | hf2
            · exact hxne _ _ _ _ hxp hto
            · by_cases gR : (8 - pos.y) = pawnStartRow c
              · rw [if_pos gR] at hf2
                by_cases gB : (inBoundsI ((8 - pos.y) + 2 * pawnForward c) (colOfX pos.x) &&
                    isEmptyB g ((8 - pos.y) + 2 * pawnForward c) (colOfX pos.x)) = true
                · rw [if_pos gB] at hf2
                  rcases List.mem_singleton.mp hf2 with rfl
                  exact hxne _ _ _ _ hxp hto
                · rw [if_neg gB] at hf2
                  exact List.not_mem_nil _ hf2
              · rw [if_neg gR] at hf2
                exact List.not_mem_nil _ hf2
          · rw [if_neg gA] at hf
            exact List.not_mem_nil _ hf
        · rcases List.mem_append.mp hd with hdm | hdp
          · exfalso
            by_cases gC : (inBoundsI ((8 - pos.y) + pawnForward c) (colOfX pos.x + -1) &&
                isOppB g ((8 - pos.y) + pawnForward c) (colOfX pos.x + -1) piece.color) = true
            · rw [if_pos gC] at hdm
              rcases List.mem_singleton.mp hdm with rfl
              exact hxne _ _ _ _ hxmp hto
            · rw [if_neg gC] at hdm
              exact List.not_mem_nil _ hdm
          · rw [List.append_nil] at hdp
            by_cases gD : (inBoundsI ((8 - pos.y) + pawnForward c) (colOfX pos.x + 1) &&
                isOppB g ((8 - pos.y) + pawnForward c) (colOfX pos.x + 1) piece.color) = true
            · rw [Bool.and_eq_true] at gD
              exact gD
            · rw [if_neg gD] at hdp
              exact absurd hdp (List.not_mem_nil _)
      · rintro ⟨hin, hopp⟩
        have gD : (inBoundsI ((8 - pos.y) + pawnForward c) (colOfX pos.x + 1) &&
            isOppB g ((8 - pos.y) + pawnForward c) (colOfX pos.x + 1) piece.color) = true := by
          rw [hin, hopp]
          rfl
        refine ⟨⟨pos, indicesToPosition ((8 - pos.y) + pawnForward c) (colOfX pos.x + 1),
          getCellI g ((8 - pos.y) + pawnForward c) (colOfX pos.x + 1), none⟩,
          List.mem_append_right _ (List.mem_append_right _ (List.mem_append_left _ ?_)), rfl⟩
        rw [if_pos gD]
        exact List.mem_singleton_self _

theorem pawn_moves_shape_witness :
    (pawnStrategy (mkPiece .pawn .white) ⟨'e', 2⟩ createInitialBoard.grid).filter
        (fun m => decide (colOfX m.to'.x = colOfX (⟨'e', 2⟩ : Position).x)) =
      [⟨⟨'e', 2⟩, indicesToPosition ((8 - (⟨'e', 2⟩ : Position).y) + pawnForward .white)
          (colOfX (⟨'e', 2⟩ : Position).x), none, none⟩,
       ⟨⟨'e', 2⟩, indicesToPosition ((8 - (⟨'e', 2⟩ : Position).y) + 2 * pawnForward .white)
          (colOfX (⟨'e', 2⟩ : Position).x), none, none⟩] :=
  (pawn_moves_shape createInitialBoard.grid ⟨'e', 2⟩ (mkPiece .pawn .white) .white
    (by decide) (by decide) (by decide) (by decide)).1 (by decide) (by decide) (by decide)
